import Mathlib

/-!
Shallow embedding of the `eventpub-hooks` publish/subscribe library
(`src/index.ts`) and verification of its specification.

Modelling choices:
* `EventKey` is `string | number` in the source; we model it as a sum of
  `String` and `Int`.
* A JS `Set<Subscriber>` iterates in insertion order without duplicates; we
  model it as a `List` of callback identifiers kept duplicate-free by `setAdd`.
  Callback identity (reference equality in JS) is modelled by a `Nat` id.
* A JS `Map` iterates in key insertion order; we model it as an association
  list: `mapSet` replaces in place or appends, `mapDelete` removes the entry.
* `maxSubscribers` defaults to `Infinity`; we model the value as `Option Nat`
  with `none` standing for `Infinity` (so `size >= Infinity` is always false).
* Promises are modelled denotationally: an asynchronous operation either
  settles at a (virtual) time with a result or never settles.  `setTimeout`
  clamps negative delays to `0`, modelled by `Int.toNat`.
* Console side effects (log lines, error reports) are modelled as returned
  values; subscriber callbacks are modelled by a pure behaviour function
  (the callbacks under study do not touch the registry).
-/

namespace EventPub

/-- `EventKey = string | number` from the source. -/
inductive EventKey where
  | str (s : String)
  | num (n : Int)
deriving DecidableEq

/-- A subscriber callback, identified by reference identity (modelled as an id). -/
abbrev Callback := Nat

/-- A JS `Set<Subscriber>`: insertion-ordered, duplicate-free list. -/
abbrev SubscriberSet := List Callback

/-- The module-level `eventMap : Map<EventKey, Set<Subscriber>>`. -/
abbrev Registry := List (EventKey × SubscriberSet)

/-- `Map.get`: the value of the first (unique) entry for `k`, if present. -/
def mapGet (m : Registry) (k : EventKey) : Option SubscriberSet :=
  match m with
  | [] => none
  | (k', s) :: rest => if k' = k then some s else mapGet rest k

/-- `Map.has`. -/
def mapHas (m : Registry) (k : EventKey) : Bool :=
  (mapGet m k).isSome

/-- `Map.set`: replace the entry for `k` in place, or append a new entry. -/
def mapSet (m : Registry) (k : EventKey) (s : SubscriberSet) : Registry :=
  match m with
  | [] => [(k, s)]
  | (k', s') :: rest => if k' = k then (k, s) :: rest else (k', s') :: mapSet rest k s

/-- `Map.delete`: remove the entry for `k`. -/
def mapDelete (m : Registry) (k : EventKey) : Registry :=
  match m with
  | [] => []
  | (k', s') :: rest => if k' = k then rest else (k', s') :: mapDelete rest k

/-- `Set.add`: no-op if the callback is already present, else append. -/
def setAdd (s : SubscriberSet) (cb : Callback) : SubscriberSet :=
  if cb ∈ s then s else s ++ [cb]

/-- `Set.delete`. -/
def setDelete (s : SubscriberSet) (cb : Callback) : SubscriberSet :=
  s.filter (fun c => c ≠ cb)

/-- The four log levels of `PubSubConfig.logLevel`. -/
inductive LogLevel where
  | error | warn | info | debug
deriving DecidableEq, BEq

/-- `PubSubConfig` after merging with `defaultConfig`.
`maxSubscribers = none` models the default `Infinity`. -/
structure PubSubConfig where
  maxSubscribers : Option Nat := none
  logLevel : LogLevel := LogLevel.error
  asyncTimeout : Int := 10000
deriving DecidableEq

/-- `defaultConfig` from the source. -/
def defaultConfig : PubSubConfig := {}

/-- The array `["error", "warn", "info", "debug"]` used by `log`. -/
def levels : List LogLevel := [LogLevel.error, LogLevel.warn, LogLevel.info, LogLevel.debug]

/-- A message emitted to the console by `log`. -/
structure LogMessage where
  level : LogLevel
  message : String
deriving DecidableEq

/-- `log(level, message, config)`: emits the message iff
`levels.indexOf(level) <= levels.indexOf(config.logLevel)`.
The emitted console line is modelled as the returned `Option`. -/
def log (level : LogLevel) (message : String) (config : PubSubConfig) : Option LogMessage :=
  let isLog := levels.indexOf level ≤ levels.indexOf config.logLevel
  if isLog then some ⟨level, message⟩ else none

/-- The message of the `Error` created when the timer of `withTimeout` fires. -/
def timeoutErrorMessage : String := "Async callback timeout"

instance {ε α : Type} [DecidableEq ε] [DecidableEq α] : DecidableEq (Except ε α) := fun a b =>
  match a, b with
  | Except.ok x, Except.ok y =>
      if h : x = y then isTrue (by rw [h]) else isFalse (fun hc => by cases hc; exact h rfl)
  | Except.error x, Except.error y =>
      if h : x = y then isTrue (by rw [h]) else isFalse (fun hc => by cases hc; exact h rfl)
  | Except.ok _, Except.error _ => isFalse (fun hc => by cases hc)
  | Except.error _, Except.ok _ => isFalse (fun hc => by cases hc)

/-- A promise, denotationally: it either settles at a virtual time with a
result (`Except.error` = rejection), or never settles. -/
structure AsyncOp where
  settle : Option (Nat × Except String Unit)
deriving DecidableEq

/-- `withTimeout(promise, timeout)`: races the promise against
`setTimeout(() => reject(new Error("Async callback timeout")), timeout)`.
`setTimeout` clamps a negative delay to `0` (`Int.toNat`).  Whichever settles
first wins; a tie goes to the promise (its reaction is a microtask, processed
before the timer macrotask scheduled for the same instant). -/
def withTimeout (op : AsyncOp) (timeout : Int) : AsyncOp :=
  let d := timeout.toNat
  match op.settle with
  | some (t, r) => if t ≤ d then ⟨some (t, r)⟩ else ⟨some (d, Except.error timeoutErrorMessage)⟩
  | none => ⟨some (d, Except.error timeoutErrorMessage)⟩

/-- A call to `handleError(error, key?)`: the arguments it receives,
i.e. one `console.error` report. -/
structure ErrorReport where
  error : String
  key : Option EventKey
deriving DecidableEq

/-- `handleError(error, key?)` from the source. -/
def handleError (error : String) (key : Option EventKey) : ErrorReport :=
  ⟨error, key⟩

/-- Invoking a subscriber callback either throws synchronously or returns a
value; a returned value is coerced by `Promise.resolve` into a promise
(a `void` return is an immediately-settled success). -/
inductive CallOutcome where
  | syncThrow (e : String)
  | returns (op : AsyncOp)
deriving DecidableEq

/-- Argument lists passed to `publish*`; payload values modelled as integers. -/
abbrev Args := List Int

/-- The (pure) behaviour of the registered callbacks: what invoking callback
`cb` with `args` does.  The claims under study assume callbacks do not touch
the registry. -/
abbrev Behavior := Callback → Args → CallOutcome

/-- Result of a synchronous dispatch (`publishSync` / `publishAllSync`):
the registry it leaves behind, the invocation trace (which callback was
invoked with which arguments, in order), and the `handleError` reports. -/
structure SyncDispatch where
  state : Registry
  trace : List (Callback × Args)
  reports : List ErrorReport
deriving DecidableEq

/-- The `subscribers.forEach` loop of `publishSync` / `publishAllSync`:
invoke each callback in insertion order inside `try { ... } catch (error)
{ handleError(error, key?) }`.  A returned promise is fire-and-forget. -/
def runSyncSubscribers (subs : SubscriberSet) (key : Option EventKey) (args : Args)
    (beh : Behavior) : List (Callback × Args) × List ErrorReport :=
  match subs with
  | [] => ([], [])
  | cb :: rest =>
    let step : List (Callback × Args) × List ErrorReport :=
      match beh cb args with
      | CallOutcome.syncThrow e => ([(cb, args)], [handleError e key])
      | CallOutcome.returns _ => ([(cb, args)], [])
    let tail := runSyncSubscribers rest key args beh
    (step.1 ++ tail.1, step.2 ++ tail.2)

/-- `publishSync(key, ...args)`. -/
def publishSync (st : Registry) (key : EventKey) (args : Args) (beh : Behavior) :
    SyncDispatch :=
  match mapGet st key with
  | none => ⟨st, [], []⟩
  | some subs =>
    let r := runSyncSubscribers subs (some key) args beh
    ⟨st, r.1, r.2⟩

/-- `publishAllSync(...args)`: the `forEach` over every entry of the map, in
key insertion order, calling `handleError(error)` without a key. -/
def publishAllSync (st : Registry) (args : Args) (beh : Behavior) : SyncDispatch :=
  let results := st.map (fun p => runSyncSubscribers p.2 none args beh)
  ⟨st, (results.map (fun r => r.1)).flatten, (results.map (fun r => r.2)).flatten⟩

/-- Result of an asynchronous dispatch (`publish` / `publishAll`): the registry
it leaves behind, how the returned promise settles (`Except.error` =
rejection), and the `handleError` reports produced by the attached `.catch`
handlers. -/
structure AsyncDispatch where
  state : Registry
  settled : Except String Unit
  reports : List ErrorReport
deriving DecidableEq

/-- The `Array.from(subs).map(cb => withTimeout(Promise.resolve(cb(...args)),
asyncTimeout).catch(err => handle))` construction followed by `await
Promise.all(...)`.  `cb(...args)` is evaluated synchronously while the array
is built, so a synchronous throw escapes `.map` before any `.catch` is
attached: the async function's promise rejects with that error and the
remaining callbacks are never invoked (handlers already attached for earlier
callbacks still report).  When no callback throws synchronously, every wrapped
invocation settles successfully (`.catch` converts rejections and timeouts
into `handleError` reports) and `Promise.all` resolves. -/
def runAsyncSubscribers (config : PubSubConfig) (subs : SubscriberSet)
    (key : Option EventKey) (args : Args) (beh : Behavior) :
    Except String Unit × List ErrorReport :=
  match subs with
  | [] => (Except.ok (), [])
  | cb :: rest =>
    match beh cb args with
    | CallOutcome.syncThrow e => (Except.error e, [])
    | CallOutcome.returns op =>
      let guarded := withTimeout op config.asyncTimeout
      let myReports : List ErrorReport :=
        match guarded.settle with
        | some (_, Except.error e) => [handleError e key]
        | _ => []
      let tail := runAsyncSubscribers config rest key args beh
      (tail.1, myReports ++ tail.2)

/-- `publish(key, ...args)`. -/
def publish (config : PubSubConfig) (st : Registry) (key : EventKey) (args : Args)
    (beh : Behavior) : AsyncDispatch :=
  match mapGet st key with
  | none => ⟨st, Except.ok (), []⟩
  | some subs =>
    let r := runAsyncSubscribers config subs (some key) args beh
    ⟨st, r.1, r.2⟩

/-- `publishAll(...args)`: `Array.from(eventMap.values()).flatMap(...)` — all
subscriber sets flattened in key insertion order, with `.catch(handleError)`
passing no key. -/
def publishAll (config : PubSubConfig) (st : Registry) (args : Args) (beh : Behavior) :
    AsyncDispatch :=
  let r := runAsyncSubscribers config ((st.map (fun p => p.2)).flatten) none args beh
  ⟨st, r.1, r.2⟩

/-- The value returned by `subscribe`: either the no-op function `() => {}`
of the capacity path, or the closure `() => unsubscribe(key, callback)`. -/
inductive UnsubAction where
  | noop
  | unsub (key : EventKey) (cb : Callback)
deriving DecidableEq

/-- The text of `config.maxSubscribers` inside the capacity warning. -/
def maxSubscribersText (config : PubSubConfig) : String :=
  match config.maxSubscribers with
  | none => "Infinity"
  | some m => toString m

/-- The text of an `EventKey` inside the capacity warning. -/
def eventKeyText : EventKey → String
  | EventKey.str s => s
  | EventKey.num n => toString n

/-- The capacity warning message built by `subscribe`. -/
def capacityWarning (config : PubSubConfig) (key : EventKey) : String :=
  "Max subscribers (" ++ maxSubscribersText config ++ ") reached for key " ++ eventKeyText key

/-- The test `subscribers.size >= config.maxSubscribers`;
`none` models `Infinity`, so the test is then always false. -/
def capacityReached (config : PubSubConfig) (size : Nat) : Bool :=
  match config.maxSubscribers with
  | none => false
  | some m => m ≤ size

/-- Result of a `subscribe` call: the registry it leaves behind, the returned
unsubscribe value, and the calls made to `log` (level and message, before the
threshold filter that `log` itself applies). -/
structure SubscribeResult where
  state : Registry
  action : UnsubAction
  logCalls : List (LogLevel × String)
deriving DecidableEq

/-- `subscribe(key, callback)` from the source: ensure a set exists for `key`,
then either hit the capacity branch (warn, return `() => {}`) or add the
callback and return `() => unsubscribe(key, callback)`. -/
def subscribe (config : PubSubConfig) (st : Registry) (key : EventKey) (cb : Callback) :
    SubscribeResult :=
  let st1 := if mapHas st key then st else mapSet st key []
  let subscribers := (mapGet st1 key).getD []
  if capacityReached config subscribers.length then
    { state := st1
      action := UnsubAction.noop
      logCalls := [(LogLevel.warn, capacityWarning config key)] }
  else
    { state := mapSet st1 key (setAdd subscribers cb)
      action := UnsubAction.unsub key cb
      logCalls := [] }

/-- `unsubscribe(key, callback)` from the source: delete the callback from the
set; if the set becomes empty, delete the key. -/
def unsubscribe (st : Registry) (key : EventKey) (cb : Callback) : Registry :=
  match mapGet st key with
  | none => st
  | some subscribers =>
    let subscribers := setDelete subscribers cb
    if subscribers.length = 0 then mapDelete st key
    else mapSet st key subscribers

/-- `clear()`. -/
def clear (_st : Registry) : Registry := []

/-- `debug.getSubscribersCount(key)`: `eventMap.get(key)?.size ?? 0`. -/
def getSubscribersCount (st : Registry) (key : EventKey) : Nat :=
  match mapGet st key with
  | some s => s.length
  | none => 0

/-- `debug.getAllKeys()`: `Array.from(eventMap.keys())`. -/
def getAllKeys (st : Registry) : List EventKey :=
  st.map (fun p => p.1)

/-- Calling the function returned by `subscribe`. -/
def runUnsubAction (st : Registry) : UnsubAction → Registry
  | UnsubAction.noop => st
  | UnsubAction.unsub key cb => unsubscribe st key cb

/-- One registry-mutating operation (the dispatcher whose config performed a
`subscribe` is recorded with it, since several dispatcher instances share the
module-level registry). -/
inductive Op where
  | sub (config : PubSubConfig) (key : EventKey) (cb : Callback)
  | unsub (key : EventKey) (cb : Callback)
  | clearAll
deriving DecidableEq

/-- Apply one operation to the registry. -/
def runOp (st : Registry) : Op → Registry
  | Op.sub config key cb => (subscribe config st key cb).state
  | Op.unsub key cb => unsubscribe st key cb
  | Op.clearAll => clear st

/-- Run a sequence of operations from a starting registry. -/
def runOps (st : Registry) (ops : List Op) : Registry :=
  ops.foldl runOp st

/-- `maxSubscribers ≥ 1` (or unbounded): the configurations under which the
registry invariant is preserved. -/
def opOk : Op → Bool
  | Op.sub config _ _ => config.maxSubscribers ≠ some 0
  | _ => true

/-- The spec's registry invariant: no key is mapped to an empty set. -/
def Invariant (st : Registry) : Prop :=
  ∀ p ∈ st, p.2 ≠ ([] : SubscriberSet)

/-- Well-formedness of the association-list representation: keys are unique.
Every registry reachable from the empty one satisfies this. -/
def KeysNodup (st : Registry) : Prop :=
  (st.map (fun p => p.1)).Nodup

/-- The severity rank used by the spec's ordering `error < warn < info < debug`:
it coincides with the position in the source's `levels` array. -/
def severityIdx : LogLevel → Nat
  | LogLevel.error => 0
  | LogLevel.warn => 1
  | LogLevel.info => 2
  | LogLevel.debug => 3

/-- A behaviour where every callback throws synchronously. -/
def behBoom : Behavior := fun _ _ => CallOutcome.syncThrow "boom"

/-- A registry with one subscriber (id 0) on key `"a"`. -/
def stA : Registry := [(EventKey.str "a", [0])]

/-- A registry with one subscriber (id 5) on key `1`. -/
def stK : Registry := [(EventKey.num 1, [5])]

/-- A dispatcher configuration with `maxSubscribers: 0`. -/
def cfgZero : PubSubConfig := { maxSubscribers := some 0 }

/-- A dispatcher configuration with `maxSubscribers: 1`. -/
def cfgOne : PubSubConfig := { maxSubscribers := some 1 }

/-- A promise that settles successfully at time 1. -/
def opLate : AsyncOp := ⟨some (1, Except.ok ())⟩

/-- A single subscription performed with the default configuration. -/
def ops1 : List Op := [Op.sub defaultConfig (EventKey.num 1) 0]

/-! ### Lemmas about the map and set primitives -/

theorem setAdd_ne_nil (s : SubscriberSet) (cb : Callback) : setAdd s cb ≠ [] := by
  unfold setAdd
  by_cases h : cb ∈ s
  · simpa [h] using List.ne_nil_of_mem h
  · simp [h]

theorem mapGet_mapSet_self (m : Registry) (k : EventKey) (s : SubscriberSet) :
    mapGet (mapSet m k s) k = some s := by
  induction m with
  | nil => simp [mapSet, mapGet]
  | cons p rest ih =>
    obtain ⟨k', s'⟩ := p
    by_cases h : k' = k <;> simp [mapSet, mapGet, h, ih]

theorem mapGet_eq_none_iff (m : Registry) (k : EventKey) :
    mapGet m k = none ↔ k ∉ getAllKeys m := by
  induction m with
  | nil => simp [mapGet, getAllKeys]
  | cons p rest ih =>
    obtain ⟨k', s'⟩ := p
    by_cases h : k' = k <;> simp [mapGet, getAllKeys, h] at ih ⊢ <;> simp [ih] <;> tauto

theorem mapGet_mem (m : Registry) (k : EventKey) (s : SubscriberSet)
    (h : mapGet m k = some s) : (k, s) ∈ m := by
  induction m with
  | nil => simp [mapGet] at h
  | cons p rest ih =>
    obtain ⟨k', s'⟩ := p
    by_cases hk : k' = k
    · simp [mapGet, hk] at h
      subst hk h
      exact List.mem_cons_self _ _
    · simp [mapGet, hk] at h
      exact List.mem_cons_of_mem _ (ih h)

theorem mapSet_of_get_none (m : Registry) (k : EventKey) (s : SubscriberSet)
    (h : mapGet m k = none) : mapSet m k s = m ++ [(k, s)] := by
  induction m with
  | nil => simp [mapSet]
  | cons p rest ih =>
    obtain ⟨k', s'⟩ := p
    by_cases hk : k' = k
    · simp [mapGet, hk] at h
    · simp [mapGet, hk] at h
      simp [mapSet, hk, ih h]

theorem mapDelete_append_of_get_none (m : Registry) (k : EventKey) (s : SubscriberSet)
    (h : mapGet m k = none) : mapDelete (m ++ [(k, s)]) k = m := by
  induction m with
  | nil => simp [mapDelete]
  | cons p rest ih =>
    obtain ⟨k', s'⟩ := p
    by_cases hk : k' = k
    · simp [mapGet, hk] at h
    · simp [mapGet, hk] at h
      simp [mapDelete, hk, ih h]

theorem mem_mapSet (m : Registry) (k : EventKey) (s : SubscriberSet)
    (p : EventKey × SubscriberSet) (h : p ∈ mapSet m k s) : p = (k, s) ∨ p ∈ m := by
  induction m with
  | nil => simp [mapSet] at h; simp [h]
  | cons q rest ih =>
    obtain ⟨k', s'⟩ := q
    by_cases hk : k' = k
    · simp [mapSet, hk] at h
      rcases h with h | h
      · exact Or.inl h
      · exact Or.inr (List.mem_cons_of_mem _ h)
    · simp [mapSet, hk] at h
      rcases h with h | h
      · exact Or.inr (by simp [h])
      · rcases ih h with h' | h'
        · exact Or.inl h'
        · exact Or.inr (List.mem_cons_of_mem _ h')

theorem mapSet_map_fst_of_isSome (m : Registry) (k : EventKey) (s : SubscriberSet)
    (h : (mapGet m k).isSome) :
    (mapSet m k s).map (fun p => p.1) = m.map (fun p => p.1) := by
  induction m with
  | nil => simp [mapGet] at h
  | cons p rest ih =>
    obtain ⟨k', s'⟩ := p
    by_cases hk : k' = k
    · simp [mapSet, hk]
    · simp [mapGet, hk] at h
      simp [mapSet, hk, ih h]

theorem mapSet_append_of_get_none (m : Registry) (k : EventKey) (s0 s : SubscriberSet)
    (h : mapGet m k = none) : mapSet (m ++ [(k, s0)]) k s = m ++ [(k, s)] := by
  induction m with
  | nil => simp [mapSet]
  | cons p rest ih =>
    obtain ⟨k', s'⟩ := p
    by_cases hk : k' = k
    · simp [mapGet, hk] at h
    · simp [mapGet, hk] at h
      simp [mapSet, hk, ih h]

theorem mapDelete_sublist (m : Registry) (k : EventKey) :
    (mapDelete m k).Sublist m := by
  induction m with
  | nil => simp [mapDelete]
  | cons p rest ih =>
    obtain ⟨k', s'⟩ := p
    by_cases hk : k' = k
    · simp only [mapDelete, if_pos hk]
      exact List.sublist_cons_self _ _
    · simp only [mapDelete, if_neg hk]
      exact List.Sublist.cons₂ _ ih

theorem mapGet_mapDelete_self (m : Registry) (k : EventKey) (hnd : KeysNodup m) :
    mapGet (mapDelete m k) k = none := by
  induction m with
  | nil => simp [mapDelete, mapGet]
  | cons p rest ih =>
    obtain ⟨k', s'⟩ := p
    unfold KeysNodup at hnd
    simp only [List.map_cons, List.nodup_cons] at hnd
    by_cases hk : k' = k
    · subst hk
      simp [mapDelete]
      exact (mapGet_eq_none_iff rest k').mpr (by simpa [getAllKeys] using hnd.1)
    · simp [mapDelete, mapGet, hk]
      exact ih hnd.2

/-! ### Well-formedness: unique keys and no empty subscriber sets -/

/-- Combined well-formedness of a registry state. -/
def WF (st : Registry) : Prop := KeysNodup st ∧ Invariant st

theorem wf_nil : WF [] := by
  constructor
  · simp [KeysNodup]
  · intro p hp; simp at hp

theorem wf_subscribe (config : PubSubConfig) (st : Registry) (k : EventKey) (cb : Callback)
    (hwf : WF st) (hok : config.maxSubscribers ≠ some 0) :
    WF (subscribe config st k cb).state := by
  obtain ⟨hnd, hinv⟩ := hwf
  unfold subscribe
  by_cases hhas : mapHas st k
  · -- key already present: st1 = st
    obtain ⟨s0, hs0⟩ : ∃ s0, mapGet st k = some s0 := by
      unfold mapHas at hhas
      exact Option.isSome_iff_exists.mp hhas
    simp only [hhas, if_true, hs0, Option.getD_some]
    by_cases hcap : capacityReached config s0.length
    · simp [hcap]
      exact ⟨hnd, hinv⟩
    · simp [hcap]
      constructor
      · unfold KeysNodup
        rw [mapSet_map_fst_of_isSome st k _ (by rw [hs0]; rfl)]
        exact hnd
      · intro p hp
        rcases mem_mapSet _ _ _ _ hp with h | h
        · rw [h]; exact setAdd_ne_nil s0 cb
        · exact hinv p h
  · -- fresh key: st1 = st ++ [(k, [])], capacity branch impossible
    have hget : mapGet st k = none := by
      unfold mapHas at hhas
      simpa using hhas
    have hst1 : mapSet st k [] = st ++ [(k, [])] := mapSet_of_get_none st k [] hget
    have hsubs : mapGet (mapSet st k []) k = some [] := mapGet_mapSet_self st k []
    have hcap : capacityReached config ([] : SubscriberSet).length = false := by
      unfold capacityReached
      match hms : config.maxSubscribers with
      | none => rfl
      | some m =>
        simp only [List.length_nil, Nat.le_zero, decide_eq_false_iff_not]
        intro hm
        exact hok (by rw [hms, hm])
    simp only [hhas, if_false, hsubs, Option.getD_some, hcap, Bool.false_eq_true, if_false]
    have hstate : mapSet (mapSet st k []) k (setAdd [] cb) = st ++ [(k, [cb])] := by
      rw [hst1]
      have hset : setAdd [] cb = [cb] := by simp [setAdd]
      rw [hset]
      exact mapSet_append_of_get_none st k [] [cb] hget
    rw [hstate]
    constructor
    · unfold KeysNodup
      simp only [List.map_append, List.map_cons, List.map_nil]
      rw [List.nodup_append]
      refine ⟨hnd, List.nodup_singleton _, ?_⟩
      intro a ha hb
      simp at hb
      rw [hb] at ha
      exact (mapGet_eq_none_iff st k).mp hget (by simpa [getAllKeys] using ha)
    · intro p hp
      rcases List.mem_append.mp hp with h | h
      · exact hinv p h
      · simp at h
        rw [h]
        simp

theorem wf_unsubscribe (st : Registry) (k : EventKey) (cb : Callback)
    (hwf : WF st) : WF (unsubscribe st k cb) := by
  obtain ⟨hnd, hinv⟩ := hwf
  unfold unsubscribe
  match hget : mapGet st k with
  | none => exact ⟨hnd, hinv⟩
  | some s =>
    by_cases hlen : (setDelete s cb).length = 0
    · simp only [hlen, if_true]
      constructor
      · unfold KeysNodup
        exact List.Nodup.sublist (List.Sublist.map _ (mapDelete_sublist st k)) hnd
      · intro p hp
        exact hinv p ((mapDelete_sublist st k).subset hp)
    · simp only [hlen, if_false]
      constructor
      · unfold KeysNodup
        rw [mapSet_map_fst_of_isSome st k _ (by rw [hget]; rfl)]
        exact hnd
      · intro p hp
        rcases mem_mapSet _ _ _ _ hp with h | h
        · have hps : p.2 = setDelete s cb := by rw [h]
          rw [hps]
          intro hc
          exact hlen (by rw [hc]; rfl)
        · exact hinv p h

theorem wf_runOp (st : Registry) (op : Op) (hwf : WF st) (hok : opOk op = true) :
    WF (runOp st op) := by
  match op with
  | Op.sub config k cb =>
    exact wf_subscribe config st k cb hwf (by simpa [opOk] using hok)
  | Op.unsub k cb => exact wf_unsubscribe st k cb hwf
  | Op.clearAll => exact wf_nil

theorem wf_runOps (st : Registry) (ops : List Op) (hwf : WF st)
    (hok : ∀ op ∈ ops, opOk op = true) : WF (runOps st ops) := by
  induction ops generalizing st with
  | nil => exact hwf
  | cons op rest ih =>
    unfold runOps
    simp only [List.foldl_cons]
    exact ih (runOp st op) (wf_runOp st op hwf (hok op (List.mem_cons_self _ _)))
      (fun o ho => hok o (List.mem_cons_of_mem _ ho))

theorem mem_setAdd (s : SubscriberSet) (cb g : Callback) (h : g ∈ setAdd s cb) :
    g ∈ s ∨ g = cb := by
  unfold setAdd at h
  by_cases hm : cb ∈ s
  · simp [hm] at h
    exact Or.inl h
  · simp [hm] at h
    exact h

theorem setDelete_eq_nil (s : SubscriberSet) (f : Callback)
    (h : ∀ g ∈ s, g = f) : setDelete s f = [] := by
  unfold setDelete
  rw [List.filter_eq_nil_iff]
  intro a ha
  simp [h a ha]

theorem keysNodup_append_of_get_none (st : Registry) (k : EventKey) (s : SubscriberSet)
    (hnd : KeysNodup st) (hget : mapGet st k = none) : KeysNodup (st ++ [(k, s)]) := by
  unfold KeysNodup
  simp only [List.map_append, List.map_cons, List.map_nil]
  rw [List.nodup_append]
  refine ⟨hnd, List.nodup_singleton _, ?_⟩
  intro a ha hb
  simp at hb
  rw [hb] at ha
  exact (mapGet_eq_none_iff st k).mp hget (by simpa [getAllKeys] using ha)

/-- After `subscribe(k, f)` on a well-formed registry whose set for `k`
contains nothing but `f`, the set for `k` still contains nothing but `f`,
and keys stay unique. -/
theorem subscribe_state_at_key (config : PubSubConfig) (st : Registry)
    (k : EventKey) (f : Callback) (hnd : KeysNodup st)
    (honly : ∀ s, mapGet st k = some s → ∀ g ∈ s, g = f) :
    ∃ s1, mapGet (subscribe config st k f).state k = some s1 ∧ (∀ g ∈ s1, g = f) ∧
      KeysNodup (subscribe config st k f).state := by
  unfold subscribe
  by_cases hhas : mapHas st k = true
  · obtain ⟨s0, hs0⟩ : ∃ s0, mapGet st k = some s0 := by
      unfold mapHas at hhas
      exact Option.isSome_iff_exists.mp hhas
    simp only [hhas, if_true, hs0, Option.getD_some]
    by_cases hcap : capacityReached config s0.length = true
    · simp only [hcap, if_true]
      exact ⟨s0, hs0, honly s0 hs0, hnd⟩
    · simp only [hcap, Bool.false_eq_true, if_false]
      refine ⟨setAdd s0 f, mapGet_mapSet_self st k _, ?_, ?_⟩
      · intro g hg
        rcases mem_setAdd s0 f g hg with h | h
        · exact honly s0 hs0 g h
        · exact h
      · unfold KeysNodup
        rw [mapSet_map_fst_of_isSome st k _ (by rw [hs0]; rfl)]
        exact hnd
  · have hget : mapGet st k = none := by
      unfold mapHas at hhas
      simpa using hhas
    simp only [hhas, Bool.false_eq_true, if_false]
    rw [mapGet_mapSet_self st k []]
    simp only [Option.getD_some]
    by_cases hcap : capacityReached config ([] : SubscriberSet).length = true
    · simp only [hcap, if_true]
      refine ⟨[], mapGet_mapSet_self st k [], by intro g hg; simp at hg, ?_⟩
      rw [mapSet_of_get_none st k [] hget]
      exact keysNodup_append_of_get_none st k [] hnd hget
    · simp only [hcap, Bool.false_eq_true, if_false]
      refine ⟨setAdd [] f, mapGet_mapSet_self _ k _, ?_, ?_⟩
      · intro g hg
        rcases mem_setAdd [] f g hg with h | h
        · simp at h
        · exact h
      · rw [mapSet_of_get_none st k [] hget, mapSet_append_of_get_none st k [] _ hget]
        exact keysNodup_append_of_get_none st k _ hnd hget

/-- The invocation trace of the `forEach` loop: every subscriber, in order,
with the published arguments, whatever the callbacks do. -/
theorem runSyncSubscribers_trace (subs : SubscriberSet) (key : Option EventKey)
    (args : Args) (beh : Behavior) :
    (runSyncSubscribers subs key args beh).1 = subs.map (fun cb => (cb, args)) := by
  induction subs with
  | nil => rfl
  | cons cb rest ih =>
    unfold runSyncSubscribers
    cases beh cb args <;> simp [ih]

/-- Every report of the `forEach` loop carries the key it was given. -/
theorem runSyncSubscribers_reports_key (subs : SubscriberSet) (key : Option EventKey)
    (args : Args) (beh : Behavior) :
    ∀ r ∈ (runSyncSubscribers subs key args beh).2, r.key = key := by
  induction subs with
  | nil => intro r hr; simp [runSyncSubscribers] at hr
  | cons cb rest ih =>
    intro r hr
    unfold runSyncSubscribers at hr
    cases hb : beh cb args <;> simp only [hb] at hr
    · simp only [handleError, List.cons_append, List.nil_append, List.mem_cons] at hr
      rcases hr with h | h
      · rw [h]
      · exact ih r h
    · simp only [List.nil_append] at hr
      exact ih r hr

/-- Every report of the asynchronous fan-out carries the key it was given. -/
theorem runAsyncSubscribers_reports_key (config : PubSubConfig) (subs : SubscriberSet)
    (key : Option EventKey) (args : Args) (beh : Behavior) :
    ∀ r ∈ (runAsyncSubscribers config subs key args beh).2, r.key = key := by
  induction subs with
  | nil => intro r hr; simp [runAsyncSubscribers] at hr
  | cons cb rest ih =>
    intro r hr
    unfold runAsyncSubscribers at hr
    cases hb : beh cb args <;> simp only [hb] at hr
    · simp at hr
    · rename_i op
      rcases hs : (withTimeout op config.asyncTimeout).settle with _ | ⟨t, res⟩
      · simp only [hs, List.nil_append] at hr
        exact ih r hr
      · cases res with
        | ok u =>
          simp only [hs, List.nil_append] at hr
          exact ih r hr
        | error e =>
          simp only [hs, handleError, List.cons_append, List.nil_append,
            List.mem_cons] at hr
          rcases hr with h | h
          · rw [h]
          · exact ih r h

theorem invariant_counts (st : Registry) (hinv : Invariant st) :
    ∀ k, k ∈ getAllKeys st → getSubscribersCount st k ≠ 0 := by
  intro k hk
  have hsome : (mapGet st k).isSome := by
    by_contra hc
    have : mapGet st k = none := by
      cases h : mapGet st k
      · rfl
      · rw [h] at hc; simp at hc
    exact (mapGet_eq_none_iff st k).mp this hk
  obtain ⟨s, hs⟩ := Option.isSome_iff_exists.mp hsome
  have hmem := mapGet_mem st k s hs
  have hne := hinv _ hmem
  unfold getSubscribersCount
  rw [hs]
  simpa using fun hc => hne (List.length_eq_zero.mp hc)

/-! ### Claim theorems -/

/-- C1: the claim says no subscriber failure ever escapes a `publish*` call.
The async variants violate it: a synchronous throw from a subscriber occurs
while `Array.map` builds the promise array, before `withTimeout`/`.catch` are
attached, so `publish("a")` and `publishAll()` reject with the subscriber's
error.  The sync variants do isolate the same throw (`try`/`catch` turns it
into a `handleError` report and the call returns normally). -/
theorem publish_sync_throw_escapes :
    (publish defaultConfig stA (EventKey.str "a") [] behBoom).settled
        = Except.error "boom" ∧
    (publishAll defaultConfig stA [] behBoom).settled = Except.error "boom" ∧
    (publishSync stA (EventKey.str "a") [] behBoom).reports
        = [handleError "boom" (some (EventKey.str "a"))] ∧
    (publishAllSync stA [] behBoom).reports = [handleError "boom" none] :=
  ⟨rfl, rfl, rfl, rfl⟩

/-- C2 counterexample: with `maxSubscribers: 0`, one `subscribe` on a fresh
key creates the empty set, takes the capacity branch, and returns without
removing it: `getAllKeys()` then contains a key whose subscriber count is 0,
refuting the claimed invariant for every registry state and configuration. -/
theorem subscribe_capacity_zero_stale_key :
    getAllKeys (runOps [] [Op.sub cfgZero (EventKey.num 1) 0]) = [EventKey.num 1] ∧
    getSubscribersCount (runOps [] [Op.sub cfgZero (EventKey.num 1) 0])
        (EventKey.num 1) = 0 :=
  ⟨rfl, rfl⟩

/-- C2 (amended): after every sequence of subscribe/unsubscribe/clear
operations in which every `subscribe` runs under a configuration with
`maxSubscribers ≥ 1` (or unbounded), no key is mapped to an empty set, and
`getAllKeys()` contains no key whose subscriber count is 0. -/
theorem registry_invariant_preserved (ops : List Op)
    (hok : ∀ op ∈ ops, opOk op = true) :
    Invariant (runOps [] ops) ∧
      ∀ k, k ∈ getAllKeys (runOps [] ops) → getSubscribersCount (runOps [] ops) k ≠ 0 := by
  have hwf := wf_runOps [] ops wf_nil hok
  exact ⟨hwf.2, invariant_counts _ hwf.2⟩

/-- C2 witness: a concrete subscription sequence satisfying the hypothesis. -/
theorem registry_invariant_preserved_witness :
    ops1.all opOk = true ∧
    getSubscribersCount (runOps [] ops1) (EventKey.num 1) ≠ 0 := by
  refine ⟨by decide, ?_⟩
  exact (registry_invariant_preserved ops1 (by decide)).2 (EventKey.num 1) (by decide)

/-- C3 counterexample: `withTimeout(op, 0)` on an operation that settles
successfully at time 1 produces the timeout error at deadline 0 — the result
does not propagate unchanged, so `durationMs <= 0` is not "no timeout". -/
theorem withTimeout_nonpositive_not_unbounded :
    (withTimeout opLate 0).settle = some (0, Except.error timeoutErrorMessage) ∧
    opLate.settle = some (1, Except.ok ()) ∧
    ((0 : Nat), (Except.error timeoutErrorMessage : Except String Unit))
        ≠ ((1 : Nat), Except.ok ()) := by
  refine ⟨rfl, rfl, ?_⟩
  simp

/-- C3 (amended): if the operation settles at or before the clamped deadline,
its result or failure propagates unchanged; if the timer fires first, a
TimeoutError is produced; and `durationMs <= 0` is enforced as an immediate
deadline of 0 ms (`setTimeout` clamps negative delays), not as "no timeout":
any operation settling later than time 0 then yields the TimeoutError. -/
theorem withTimeout_deadline (op : AsyncOp) (d : Int) :
    (∀ t r, op.settle = some (t, r) → t ≤ d.toNat →
        (withTimeout op d).settle = some (t, r)) ∧
    (∀ t r, op.settle = some (t, r) → d.toNat < t →
        (withTimeout op d).settle = some (d.toNat, Except.error timeoutErrorMessage)) ∧
    (op.settle = none →
        (withTimeout op d).settle = some (d.toNat, Except.error timeoutErrorMessage)) ∧
    (d ≤ 0 → ∀ t r, op.settle = some (t, r) → 0 < t →
        (withTimeout op d).settle = some (0, Except.error timeoutErrorMessage)) := by
  have hwin : ∀ t r, op.settle = some (t, r) → t ≤ d.toNat →
      (withTimeout op d).settle = some (t, r) := by
    intro t r hs ht
    simp only [withTimeout, hs]
    rw [if_pos ht]
  have hlose : ∀ t r, op.settle = some (t, r) → d.toNat < t →
      (withTimeout op d).settle = some (d.toNat, Except.error timeoutErrorMessage) := by
    intro t r hs ht
    simp only [withTimeout, hs]
    rw [if_neg (Nat.not_le.mpr ht)]
  have hnever : op.settle = none →
      (withTimeout op d).settle = some (d.toNat, Except.error timeoutErrorMessage) := by
    intro hs
    simp only [withTimeout, hs]
  refine ⟨hwin, hlose, hnever, ?_⟩
  intro hd t r hs ht
  have hz : d.toNat = 0 := Int.toNat_eq_zero.mpr hd
  have := hlose t r hs (by rw [hz]; exact ht)
  rw [hz] at this
  exact this

/-- C3 witness: a settle-first case and a nonpositive-deadline case. -/
theorem withTimeout_deadline_witness :
    (withTimeout ⟨some (3, Except.ok ())⟩ 5).settle = some (3, Except.ok ()) ∧
    (withTimeout opLate (-2)).settle
        = some (0, Except.error timeoutErrorMessage) :=
  ⟨(withTimeout_deadline ⟨some (3, Except.ok ())⟩ 5).1 3 (Except.ok ()) rfl (by decide),
    (withTimeout_deadline opLate (-2)).2.2.2 (by decide) 1 (Except.ok ()) rfl (by decide)⟩

/-- C4: when the current subscriber count for `key` has reached
`maxSubscribers`, `subscribe` makes exactly one `log` call at level "warn"
with the capacity message, returns the no-op unsubscribe value, leaves the
subscriber count unchanged, and calling the returned value changes nothing. -/
theorem subscribe_capacity_noop (config : PubSubConfig) (st : Registry)
    (key : EventKey) (cb : Callback)
    (h : capacityReached config (getSubscribersCount st key) = true) :
    (subscribe config st key cb).logCalls
        = [(LogLevel.warn, capacityWarning config key)] ∧
    (subscribe config st key cb).action = UnsubAction.noop ∧
    getSubscribersCount (subscribe config st key cb).state key
        = getSubscribersCount st key ∧
    runUnsubAction (subscribe config st key cb).state (subscribe config st key cb).action
        = (subscribe config st key cb).state := by
  by_cases hhas : mapHas st key = true
  · obtain ⟨s0, hs0⟩ : ∃ s0, mapGet st key = some s0 := by
      unfold mapHas at hhas
      exact Option.isSome_iff_exists.mp hhas
    have hcount : getSubscribersCount st key = s0.length := by
      unfold getSubscribersCount
      rw [hs0]
    rw [hcount] at h
    have hsub : subscribe config st key cb =
        { state := st, action := UnsubAction.noop,
          logCalls := [(LogLevel.warn, capacityWarning config key)] } := by
      unfold subscribe
      simp [hhas, hs0, h]
    rw [hsub]
    exact ⟨rfl, rfl, rfl, rfl⟩
  · have hget : mapGet st key = none := by
      unfold mapHas at hhas
      simpa using hhas
    have hcount : getSubscribersCount st key = 0 := by
      unfold getSubscribersCount
      rw [hget]
    rw [hcount] at h
    have hsub : subscribe config st key cb =
        { state := mapSet st key [], action := UnsubAction.noop,
          logCalls := [(LogLevel.warn, capacityWarning config key)] } := by
      unfold subscribe
      simp [hhas, mapGet_mapSet_self, h]
    rw [hsub]
    refine ⟨rfl, rfl, ?_, rfl⟩
    rw [hcount]
    unfold getSubscribersCount
    rw [mapGet_mapSet_self]
    rfl

/-- C4 witness: a full key under `maxSubscribers: 1`. -/
theorem subscribe_capacity_noop_witness :
    capacityReached cfgOne (getSubscribersCount stK (EventKey.num 1)) = true ∧
    (subscribe cfgOne stK (EventKey.num 1) 7).action = UnsubAction.noop ∧
    getSubscribersCount (subscribe cfgOne stK (EventKey.num 1) 7).state (EventKey.num 1)
        = getSubscribersCount stK (EventKey.num 1) :=
  ⟨rfl, (subscribe_capacity_noop cfgOne stK (EventKey.num 1) 7 rfl).2.1,
    (subscribe_capacity_noop cfgOne stK (EventKey.num 1) 7 rfl).2.2.1⟩

/-- C5 counterexample: from a starting state where callback 5 is already
subscribed under key 1, `subscribe(1, 7)` followed by `unsubscribe(1, 7)`
leaves `getSubscribersCount(1) = 1` and key 1 still present, refuting the
claim for every starting registry state. -/
theorem sub_unsub_roundtrip_other_subscriber :
    getSubscribersCount
        (unsubscribe (subscribe defaultConfig stK (EventKey.num 1) 7).state
          (EventKey.num 1) 7) (EventKey.num 1) = 1 ∧
    EventKey.num 1 ∈ getAllKeys
        (unsubscribe (subscribe defaultConfig stK (EventKey.num 1) 7).state
          (EventKey.num 1) 7) := by
  decide

/-- C5 (amended): for all keys `k` and callbacks `f`, from every well-formed
starting registry state in which nothing other than `f` is subscribed under
`k`, `subscribe(k, f)` followed immediately by `unsubscribe(k, f)` leaves
`getSubscribersCount(k) = 0` and `k` absent from `getAllKeys()`. -/
theorem sub_unsub_roundtrip (config : PubSubConfig) (st : Registry) (k : EventKey)
    (f : Callback) (hnd : KeysNodup st)
    (honly : ∀ s, mapGet st k = some s → ∀ g ∈ s, g = f) :
    getSubscribersCount (unsubscribe (subscribe config st k f).state k f) k = 0 ∧
    k ∉ getAllKeys (unsubscribe (subscribe config st k f).state k f) := by
  obtain ⟨s1, hs1, hall, hnd1⟩ := subscribe_state_at_key config st k f hnd honly
  have hdel : setDelete s1 f = [] := setDelete_eq_nil s1 f hall
  have hunsub : unsubscribe (subscribe config st k f).state k f
      = mapDelete (subscribe config st k f).state k := by
    unfold unsubscribe
    rw [hs1]
    simp [hdel]
  rw [hunsub]
  have hnone := mapGet_mapDelete_self (subscribe config st k f).state k hnd1
  constructor
  · unfold getSubscribersCount
    rw [hnone]
  · exact (mapGet_eq_none_iff _ k).mp hnone

/-- C5 witness: subscribing and unsubscribing on an empty registry. -/
theorem sub_unsub_roundtrip_witness :
    KeysNodup ([] : Registry) ∧
    getSubscribersCount (unsubscribe (subscribe defaultConfig [] (EventKey.num 1) 7).state
        (EventKey.num 1) 7) (EventKey.num 1) = 0 ∧
    EventKey.num 1 ∉ getAllKeys (unsubscribe
        (subscribe defaultConfig [] (EventKey.num 1) 7).state (EventKey.num 1) 7) := by
  have h := sub_unsub_roundtrip defaultConfig [] (EventKey.num 1) 7
      (by simp [KeysNodup]) (by intro s hs; simp [mapGet] at hs)
  exact ⟨by simp [KeysNodup], h.1, h.2⟩

/-- C6: within one `publishSync(key, ...args)` call (and within each key's
part of `publishAllSync(...args)`), the subscribers are invoked exactly once
each, with `args`, in insertion order, for every behaviour — including
behaviours where earlier subscribers throw synchronously. -/
theorem publishSync_insertion_order_isolated (st : Registry) (key : EventKey)
    (args : Args) (beh : Behavior) :
    (publishSync st key args beh).trace
        = ((mapGet st key).getD []).map (fun cb => (cb, args)) ∧
    (publishAllSync st args beh).trace
        = (st.map (fun p => p.2.map (fun cb => (cb, args)))).flatten := by
  constructor
  · unfold publishSync
    rcases hg : mapGet st key with _ | s
    · simp
    · simp [runSyncSubscribers_trace]
  · unfold publishAllSync
    simp only [List.map_map]
    congr 1
    refine List.map_congr_left ?_
    intro p _
    simp only [Function.comp_apply]
    exact runSyncSubscribers_trace p.2 none args beh

/-- C7: every `handleError` report produced by `publish(key, ...)` or
`publishSync(key, ...)` carries the originating event key, while every report
produced by `publishAll(...)` or `publishAllSync(...)` carries no key — the
per-key attribution is lost for batched publishes. -/
theorem handleError_key_attribution (config : PubSubConfig) (st : Registry)
    (key : EventKey) (args : Args) (beh : Behavior) :
    (∀ r ∈ (publishSync st key args beh).reports, r.key = some key) ∧
    (∀ r ∈ (publish config st key args beh).reports, r.key = some key) ∧
    (∀ r ∈ (publishAll config st args beh).reports, r.key = none) ∧
    (∀ r ∈ (publishAllSync st args beh).reports, r.key = none) := by
  refine ⟨?_, ?_, ?_, ?_⟩
  · intro r hr
    unfold publishSync at hr
    rcases hg : mapGet st key with _ | s
    · rw [hg] at hr
      simp at hr
    · rw [hg] at hr
      exact runSyncSubscribers_reports_key s (some key) args beh r hr
  · intro r hr
    unfold publish at hr
    rcases hg : mapGet st key with _ | s
    · rw [hg] at hr
      simp at hr
    · rw [hg] at hr
      exact runAsyncSubscribers_reports_key config s (some key) args beh r hr
  · intro r hr
    exact runAsyncSubscribers_reports_key config _ none args beh r hr
  · intro r hr
    unfold publishAllSync at hr
    rcases List.mem_flatten.mp hr with ⟨l, hl, hrl⟩
    rcases List.mem_map.mp hl with ⟨rr, hrr, hrrl⟩
    rcases List.mem_map.mp hrr with ⟨p, hp, hpr⟩
    rw [← hrrl, ← hpr] at hrl
    exact runSyncSubscribers_reports_key p.2 none args beh r hrl

/-- C7 witness: a synchronously-throwing subscriber on key `"a"` yields a
report attributed to `"a"`. -/
theorem handleError_key_attribution_witness :
    handleError "boom" (some (EventKey.str "a"))
        ∈ (publishSync stA (EventKey.str "a") [] behBoom).reports ∧
    (handleError "boom" (some (EventKey.str "a"))).key = some (EventKey.str "a") := by
  have heq : (publishSync stA (EventKey.str "a") [] behBoom).reports
      = [handleError "boom" (some (EventKey.str "a"))] := rfl
  have hmem : handleError "boom" (some (EventKey.str "a"))
      ∈ (publishSync stA (EventKey.str "a") [] behBoom).reports := by
    rw [heq]
    exact List.mem_singleton.mpr rfl
  exact ⟨hmem,
    (handleError_key_attribution defaultConfig stA (EventKey.str "a") [] behBoom).1 _ hmem⟩

/-- C8: a `log` call emits its message if and only if the severity index of
its level (in the order error < warn < info < debug, error = 0) is at most
the index of the configured threshold. -/
theorem log_threshold (level : LogLevel) (message : String) (config : PubSubConfig) :
    (log level message config).isSome = true ↔
      severityIdx level ≤ severityIdx config.logLevel := by
  rcases config with ⟨ms, ll, ato⟩
  cases level <;> cases ll <;>
    simp [log, levels, severityIdx, List.indexOf, List.findIdx, List.findIdx.go] <;>
    decide

/-- C9: when the subscriber set for `key` is at capacity and `cb` is already a
member, `subscribe(key, cb)` leaves the registry unchanged, returns the
capacity-path no-op value rather than an unsubscribe closure, and calling
that returned value does not remove the existing registration of `cb`. -/
theorem subscribe_capacity_member_noop (config : PubSubConfig) (st : Registry)
    (key : EventKey) (cb : Callback) (s : SubscriberSet)
    (hs : mapGet st key = some s) (hmem : cb ∈ s)
    (hcap : capacityReached config s.length = true) :
    (subscribe config st key cb).state = st ∧
    (subscribe config st key cb).action = UnsubAction.noop ∧
    cb ∈ (mapGet (runUnsubAction (subscribe config st key cb).state
        (subscribe config st key cb).action) key).getD [] := by
  have hhas : mapHas st key = true := by
    unfold mapHas
    rw [hs]
    rfl
  have hsub : subscribe config st key cb =
      { state := st, action := UnsubAction.noop,
        logCalls := [(LogLevel.warn, capacityWarning config key)] } := by
    unfold subscribe
    simp [hhas, hs, hcap]
  rw [hsub]
  refine ⟨rfl, rfl, ?_⟩
  simp only [runUnsubAction]
  rw [hs]
  simpa using hmem

/-- C9 witness: callback 5 already registered under key 1 at capacity 1. -/
theorem subscribe_capacity_member_noop_witness :
    mapGet stK (EventKey.num 1) = some [5] ∧ (5 : Callback) ∈ ([5] : SubscriberSet) ∧
    capacityReached cfgOne ([5] : SubscriberSet).length = true ∧
    (subscribe cfgOne stK (EventKey.num 1) 5).action = UnsubAction.noop := by
  refine ⟨rfl, by decide, rfl, ?_⟩
  exact (subscribe_capacity_member_noop cfgOne stK (EventKey.num 1) 5 [5] rfl
    (by decide) rfl).2.1

/-- C10: `publishSync` and `publish` leave the registry untouched (the
callbacks' behaviours are pure in this model, i.e. they do not call
subscribe/unsubscribe/clear): every key's subscriber count and the key list
are identical before and after the call. -/
theorem publish_registry_frame (config : PubSubConfig) (st : Registry) (key : EventKey)
    (args : Args) (beh : Behavior) :
    (publishSync st key args beh).state = st ∧
    (publish config st key args beh).state = st ∧
    (∀ k', getSubscribersCount (publishSync st key args beh).state k'
        = getSubscribersCount st k') ∧
    getAllKeys (publishSync st key args beh).state = getAllKeys st ∧
    (∀ k', getSubscribersCount (publish config st key args beh).state k'
        = getSubscribersCount st k') ∧
    getAllKeys (publish config st key args beh).state = getAllKeys st := by
  have h1 : (publishSync st key args beh).state = st := by
    unfold publishSync
    rcases mapGet st key with _ | s <;> rfl
  have h2 : (publish config st key args beh).state = st := by
    unfold publish
    rcases mapGet st key with _ | s <;> rfl
  exact ⟨h1, h2, fun k' => by rw [h1], by rw [h1], fun k' => by rw [h2], by rw [h2]⟩

end EventPub
